import Mathlib

/-!
Shallow embedding of the `teensymat::Matrix` class from
`src/include/TeensyOpt/TeensyMat/matrix_core.hpp` (the complete header
variant), together with theorems settling the specification claims.

The C++ class owns a flat buffer (`std::vector<Scalar> data`) plus stride
and dimension fields; every element access goes through the checked
accessor `operator()(row, col)`, which throws `std::range_error` on a
logical or physical out-of-bounds access.  We model the buffer as a
`List`, exceptions as `Except MatErr`, and the mutable reference returned
by the accessor as a checked read (`access`) and a checked write (`set`)
that perform exactly the two bounds checks of the accessor.
-/

namespace teensymat

/-- The distinguishable failure conditions thrown by the C++ code
(`std::range_error` / `std::runtime_error` with distinct messages). -/
inductive MatErr where
  /-- Message "Invalid index" : logical bounds violation in `operator()`. -/
  | invalidIndex : MatErr
  /-- Message "Tried accessing element beyond Matrix data" : physical bounds
  violation in `operator()`. -/
  | beyondData : MatErr
  /-- Message "Received too many elements to initialize Matrix". -/
  | tooMany : MatErr
  /-- Message "Received too few elements to initialize Matrix". -/
  | tooFew : MatErr
  /-- Message "Tried to add Matrices of different shapes". -/
  | shapeMismatch : MatErr
deriving DecidableEq

/-- Embedding of `teensymat::Matrix<Scalar>`: fields in the order of the C++ class. -/
structure Matrix (α : Type) where
  /-- The data associated with the Matrix (linear array). -/
  data : List α
  /-- The increase in the data index that will increment by one row. -/
  row_stride : Nat
  /-- The increase in the data index that will increment by one column. -/
  col_stride : Nat
  /-- The number of rows of the Matrix. -/
  nrows : Nat
  /-- The number of columns of the Matrix. -/
  ncols : Nat
  /-- The size of the matrix (the length of the associated linear memory). -/
  matrix_size : Nat
deriving DecidableEq

/-- The C++ cast `(Scalar)0` used by the constructors, per scalar type. -/
class CastZero (α : Type) where
  /-- The value `(Scalar)0`. -/
  czero : α

instance : CastZero Int := ⟨0⟩
instance : CastZero Nat := ⟨0⟩
instance : CastZero Bool := ⟨false⟩

/-- C++ truthiness test `if (x)` for a scalar, per scalar type. -/
class Truthy (α : Type) where
  /-- Embedding of `(bool)x` : whether the scalar converts to `true`. -/
  truthy : α → Bool

instance : Truthy Bool := ⟨fun b => b⟩
instance : Truthy Int := ⟨fun n => decide (n ≠ 0)⟩
instance : Truthy Nat := ⟨fun n => decide (n ≠ 0)⟩

namespace Matrix

/-- The default constructor `Matrix()`: a 0x0 matrix, empty storage,
zero strides. -/
def mkDefault (α : Type) : Matrix α :=
  ⟨[], 0, 0, 0, 0, 0⟩

/-- Embedding of `Matrix(nrows, ncols, element)`: every entry set to `element`,
row-major packed strides. -/
def mkFill (nrows ncols : Nat) (element : α) : Matrix α :=
  ⟨List.replicate (nrows * ncols) element, ncols, 1, nrows, ncols,
    nrows * ncols⟩

/-- Embedding of `Matrix(nrows, ncols)`: delegates to the fill constructor with
`(Scalar)0`. -/
def mkZeros (α : Type) [CastZero α] (nrows ncols : Nat) : Matrix α :=
  mkFill nrows ncols CastZero.czero

/-- Embedding of `Matrix(nrows, ncols, std::vector<Scalar> elements)`: adopts the
buffer directly, row-major strides, no validation. -/
def mkFromVec (nrows ncols : Nat) (elements : List α) : Matrix α :=
  ⟨elements, ncols, 1, nrows, ncols, nrows * ncols⟩

/-- Embedding of `Matrix(nrows, ncols, row_stride, col_stride, elements)`: adopts the
buffer directly with caller-specified strides, no validation. -/
def mkFromVecStrides (nrows ncols row_stride col_stride : Nat)
    (elements : List α) : Matrix α :=
  ⟨elements, row_stride, col_stride, nrows, ncols, nrows * ncols⟩

/-- The linear offset `row * row_stride + col * col_stride` computed by
the accessor. -/
def offset (m : Matrix α) (row col : Nat) : Nat :=
  row * m.row_stride + col * m.col_stride

/-- The read half of `operator()(row, col)`: both bounds checks, then the
value at the computed offset. -/
def access [Inhabited α] (m : Matrix α) (row col : Nat) : Except MatErr α :=
  if row ≥ m.nrows ∨ col ≥ m.ncols then .error .invalidIndex
  else
    let data_position := row * m.row_stride + col * m.col_stride
    if data_position ≥ m.matrix_size ∨ data_position ≥ m.data.length then
      .error .beyondData
    else .ok (m.data.getD data_position default)

/-- The write half of `operator()(row, col)`: the same two bounds checks,
then a write through the returned reference. -/
def set (m : Matrix α) (row col : Nat) (v : α) : Except MatErr (Matrix α) :=
  if row ≥ m.nrows ∨ col ≥ m.ncols then .error .invalidIndex
  else
    let data_position := row * m.row_stride + col * m.col_stride
    if data_position ≥ m.matrix_size ∨ data_position ≥ m.data.length then
      .error .beyondData
    else .ok { m with data := m.data.set data_position v }

/-- The matrix after one `*(*this)(row, col) *= by` step: the buffer cell
at the computed offset is overwritten with its value times `k`. -/
def multUpd [Inhabited α] [Mul α] (cur : Matrix α) (row col : Nat)
    (k : α) : Matrix α :=
  let pos := cur.offset row col
  { cur with data := cur.data.set pos ((cur.data.getD pos default) * k) }

/-- Every logically valid coordinate passes the physical
bounds check of the accessor (the data-model invariant of spec section 3). -/
def accessible (m : Matrix α) : Prop :=
  ∀ r, r < m.nrows → ∀ c, c < m.ncols →
    m.offset r c < m.matrix_size ∧ m.offset r c < m.data.length

/-- The coordinate-to-offset map sends distinct valid coordinates to
distinct buffer offsets (no aliasing between logical cells). -/
def offsetInjective (m : Matrix α) : Prop :=
  ∀ r1, r1 < m.nrows → ∀ c1, c1 < m.ncols →
    ∀ r2, r2 < m.nrows → ∀ c2, c2 < m.ncols →
      m.offset r1 c1 = m.offset r2 c2 → r1 = r2 ∧ c1 = c2

instance accessibleDecidable (m : Matrix α) : Decidable m.accessible := by
  unfold accessible
  infer_instance

instance offsetInjectiveDecidable (m : Matrix α) :
    Decidable m.offsetInjective := by
  unfold offsetInjective
  apply Nat.decidableBallLT

/-- The shape-and-layout frame of a matrix: everything except element
values. -/
def frameEq (m1 m2 : Matrix α) : Prop :=
  m1.nrows = m2.nrows ∧ m1.ncols = m2.ncols ∧
  m1.row_stride = m2.row_stride ∧ m1.col_stride = m2.col_stride ∧
  m1.matrix_size = m2.matrix_size ∧ m1.data.length = m2.data.length

theorem frameEq.refl (m : Matrix α) : frameEq m m :=
  ⟨rfl, rfl, rfl, rfl, rfl, rfl⟩

theorem frameEq.symm {m1 m2 : Matrix α} (h : frameEq m1 m2) : frameEq m2 m1 :=
  ⟨h.1.symm, h.2.1.symm, h.2.2.1.symm, h.2.2.2.1.symm, h.2.2.2.2.1.symm,
    h.2.2.2.2.2.symm⟩

theorem frameEq.trans {m1 m2 m3 : Matrix α} (h : frameEq m1 m2)
    (h' : frameEq m2 m3) : frameEq m1 m3 :=
  ⟨h.1.trans h'.1, h.2.1.trans h'.2.1, h.2.2.1.trans h'.2.2.1,
    h.2.2.2.1.trans h'.2.2.2.1, h.2.2.2.2.1.trans h'.2.2.2.2.1,
    h.2.2.2.2.2.trans h'.2.2.2.2.2⟩

theorem accessible_of_frameEq {m1 m2 : Matrix α} (hf : frameEq m1 m2)
    (h : accessible m1) : accessible m2 := by
  intro r hr c hc
  obtain ⟨h1, h2, h3, h4, h5, h6⟩ := hf
  have := h r (h1 ▸ hr) c (h2 ▸ hc)
  simp only [offset] at this ⊢
  rw [← h3, ← h4, ← h5, ← h6]
  exact this

theorem offsetInjective_of_frameEq {m1 m2 : Matrix α} (hf : frameEq m1 m2)
    (h : offsetInjective m1) : offsetInjective m2 := by
  intro r1 hr1 c1 hc1 r2 hr2 c2 hc2 heq
  obtain ⟨h1, h2, h3, h4, h5, h6⟩ := hf
  apply h r1 (h1 ▸ hr1) c1 (h2 ▸ hc1) r2 (h1 ▸ hr2) c2 (h2 ▸ hc2)
  simp only [offset] at heq ⊢
  rw [h3, h4]
  exact heq

theorem access_ok [Inhabited α] {m : Matrix α} {row col : Nat}
    (h1 : row < m.nrows) (h2 : col < m.ncols)
    (h3 : m.offset row col < m.matrix_size)
    (h4 : m.offset row col < m.data.length) :
    m.access row col = .ok (m.data.getD (m.offset row col) default) := by
  simp only [access, offset] at *
  rw [if_neg (by omega), if_neg (by omega)]

theorem set_ok {m : Matrix α} {row col : Nat} (v : α)
    (h1 : row < m.nrows) (h2 : col < m.ncols)
    (h3 : m.offset row col < m.matrix_size)
    (h4 : m.offset row col < m.data.length) :
    m.set row col v = .ok { m with data := m.data.set (m.offset row col) v } := by
  simp only [set, offset] at *
  rw [if_neg (by omega), if_neg (by omega)]

theorem set_frame {m m' : Matrix α} {row col : Nat} {v : α}
    (h : m.set row col v = .ok m') : frameEq m m' := by
  simp only [set] at h
  split at h
  · exact absurd h (by simp)
  · split at h
    · exact absurd h (by simp)
    · cases h
      exact ⟨rfl, rfl, rfl, rfl, rfl, by simp⟩

theorem access_ok_of_accessible [Inhabited α] {m : Matrix α} {row col : Nat}
    (hacc : accessible m) (h1 : row < m.nrows) (h2 : col < m.ncols) :
    m.access row col = .ok (m.data.getD (m.offset row col) default) :=
  access_ok h1 h2 (hacc row h1 col h2).1 (hacc row h1 col h2).2

theorem set_ok_of_accessible {m : Matrix α} {row col : Nat} (v : α)
    (hacc : accessible m) (h1 : row < m.nrows) (h2 : col < m.ncols) :
    m.set row col v = .ok { m with data := m.data.set (m.offset row col) v } :=
  set_ok v h1 h2 (hacc row h1 col h2).1 (hacc row h1 col h2).2

end Matrix

/-- A C++ `for` loop over a precomputed list of loop indices, threading a
state through an exception-raising body: the loop stops at the first
thrown exception. -/
def iterGo (f : ι → σ → Except MatErr σ) : List ι → σ → Except MatErr σ
  | [], s => .ok s
  | i :: is, s =>
    match f i s with
    | .error e => .error e
    | .ok s' => iterGo f is s'

/-- The row-major traversal order of the nested
`for (row ...) for (col ...)` loops. -/
def rowMajorIdx (nrows ncols : Nat) : List (Nat × Nat) :=
  (List.range nrows).flatMap fun r => (List.range ncols).map fun c => (r, c)

namespace Matrix

/-- Embedding of `swap_row(row1, row2)`: pairwise exchange across the full rows via
the accessor. -/
def swap_row [Inhabited α] (m : Matrix α) (row1 row2 : Nat) : Except MatErr (Matrix α) :=
  iterGo (fun col cur => do
      let a ← cur.access row1 col
      let b ← cur.access row2 col
      let cur1 ← cur.set row1 col b
      cur1.set row2 col a)
    (List.range m.ncols) m

/-- Embedding of `swap_col(col1, col2)`: pairwise exchange across the full columns via
the accessor. -/
def swap_col [Inhabited α] (m : Matrix α) (col1 col2 : Nat) : Except MatErr (Matrix α) :=
  iterGo (fun row cur => do
      let a ← cur.access row col1
      let b ← cur.access row col2
      let cur1 ← cur.set row col1 b
      cur1.set row col2 a)
    (List.range m.nrows) m

/-- Embedding of `mult_row_scalar(row, by)`: multiply every element of the row. -/
def mult_row_scalar [Inhabited α] [Mul α] (m : Matrix α) (row : Nat) (b : α) :
    Except MatErr (Matrix α) :=
  iterGo (fun col cur => do
      let v ← cur.access row col
      cur.set row col (v * b))
    (List.range m.ncols) m

/-- Embedding of `mult_col_scalar(column, by)`: multiply every element of the column. -/
def mult_col_scalar [Inhabited α] [Mul α] (m : Matrix α) (column : Nat) (b : α) :
    Except MatErr (Matrix α) :=
  iterGo (fun row cur => do
      let v ← cur.access row column
      cur.set row column (v * b))
    (List.range m.nrows) m

/-- Embedding of `div_row_scalar(row, by)`: multiplication by the reciprocal `1/by`. -/
def div_row_scalar [Inhabited α] [Mul α] [One α] [Div α] (m : Matrix α) (row : Nat)
    (b : α) : Except MatErr (Matrix α) :=
  m.mult_row_scalar row ((1 : α) / b)

/-- Embedding of `div_col_scalar(column, by)`: multiplication by the reciprocal
`1/by`. -/
def div_col_scalar [Inhabited α] [Mul α] [One α] [Div α] (m : Matrix α) (column : Nat)
    (b : α) : Except MatErr (Matrix α) :=
  m.mult_col_scalar column ((1 : α) / b)

/-- Embedding of `add_row_scalar(row, what)`: add a value to each element of the
row. -/
def add_row_scalar [Inhabited α] [Add α] (m : Matrix α) (row : Nat) (what : α) :
    Except MatErr (Matrix α) :=
  iterGo (fun col cur => do
      let v ← cur.access row col
      cur.set row col (v + what))
    (List.range m.ncols) m

/-- Embedding of `add_col_scalar(column, what)`: add a value to each element of the
column. -/
def add_col_scalar [Inhabited α] [Add α] (m : Matrix α) (column : Nat) (what : α) :
    Except MatErr (Matrix α) :=
  iterGo (fun row cur => do
      let v ← cur.access row column
      cur.set row column (v + what))
    (List.range m.nrows) m

/-- Embedding of `sub_row_scalar(row, what)`: addition of the negation. -/
def sub_row_scalar [Inhabited α] [Add α] [Neg α] (m : Matrix α) (row : Nat) (what : α) :
    Except MatErr (Matrix α) :=
  m.add_row_scalar row (-what)

/-- Embedding of `sub_col_scalar(column, what)`: addition of the negation. -/
def sub_col_scalar [Inhabited α] [Add α] [Neg α] (m : Matrix α) (column : Nat)
    (what : α) : Except MatErr (Matrix α) :=
  m.add_col_scalar column (-what)

/-- Embedding of `add_row_elementwise(row1, row2)`: add row2 into row1. -/
def add_row_elementwise [Inhabited α] [Add α] (m : Matrix α) (row1 row2 : Nat) :
    Except MatErr (Matrix α) :=
  iterGo (fun col cur => do
      let b ← cur.access row2 col
      let a ← cur.access row1 col
      cur.set row1 col (a + b))
    (List.range m.ncols) m

/-- Embedding of `add_col_elementwise(col1, col2)`: add col2 into col1. -/
def add_col_elementwise [Inhabited α] [Add α] (m : Matrix α) (col1 col2 : Nat) :
    Except MatErr (Matrix α) :=
  iterGo (fun row cur => do
      let b ← cur.access row col2
      let a ← cur.access row col1
      cur.set row col1 (a + b))
    (List.range m.nrows) m

/-- Embedding of `sub_row_elementwise(row1, row2)`: subtract row2 from row1. -/
def sub_row_elementwise [Inhabited α] [Sub α] (m : Matrix α) (row1 row2 : Nat) :
    Except MatErr (Matrix α) :=
  iterGo (fun col cur => do
      let b ← cur.access row2 col
      let a ← cur.access row1 col
      cur.set row1 col (a - b))
    (List.range m.ncols) m

/-- Embedding of `sub_col_elementwise(col1, col2)`: subtract col2 from col1. -/
def sub_col_elementwise [Inhabited α] [Sub α] (m : Matrix α) (col1 col2 : Nat) :
    Except MatErr (Matrix α) :=
  iterGo (fun row cur => do
      let b ← cur.access row col2
      let a ← cur.access row col1
      cur.set row col1 (a - b))
    (List.range m.nrows) m

/-- Embedding of `transpose()`: copies the data, then builds
`Matrix{ncols, nrows, col_stride, row_stride, data}`. -/
def transpose (m : Matrix α) : Matrix α :=
  mkFromVecStrides m.ncols m.nrows m.col_stride m.row_stride m.data

/-- Embedding of `scalar_binary_apply(other, to_apply)`: a new matrix whose entries
are `to_apply` of each element of `this` and the fixed scalar `other`. -/
def scalar_binary_apply [Inhabited α] [Inhabited β] [CastZero β]
    (m : Matrix α) (other : α) (to_apply : α → α → β) :
    Except MatErr (Matrix β) :=
  iterGo (fun rc res => do
      let v ← m.access rc.1 rc.2
      res.set rc.1 rc.2 (to_apply v other))
    (rowMajorIdx m.nrows m.ncols) (mkZeros β m.nrows m.ncols)

/-- Embedding of `scalar_binary_apply_inplace(other, to_apply)`: overwrites each
element of `this` with `to_apply` of it and the scalar `other`. -/
def scalar_binary_apply_inplace [Inhabited α] (m : Matrix α) (other : α)
    (to_apply : α → α → α) : Except MatErr (Matrix α) :=
  iterGo (fun rc cur => do
      let v ← cur.access rc.1 rc.2
      cur.set rc.1 rc.2 (to_apply v other))
    (rowMajorIdx m.nrows m.ncols) m

/-- Embedding of `elementwise_binary_apply(other, to_apply)`: shape check, then a new
matrix built from `to_apply(*(*this)(row, col), *(*this)(row, col))` —
both arguments are read from `this`, exactly as in the source. -/
def elementwise_binary_apply [Inhabited α] [Inhabited β] [CastZero β]
    (m : Matrix α) (other : Matrix α) (to_apply : α → α → β) :
    Except MatErr (Matrix β) :=
  if m.nrows ≠ other.nrows ∨ m.ncols ≠ other.ncols then
    .error .shapeMismatch
  else
    iterGo (fun rc res => do
        let v1 ← m.access rc.1 rc.2
        let v2 ← m.access rc.1 rc.2
        res.set rc.1 rc.2 (to_apply v1 v2))
      (rowMajorIdx m.nrows m.ncols) (mkZeros β m.nrows m.ncols)

/-- Embedding of `elementwise_binary_apply_inplace(other, to_apply)`: shape check,
then overwrites each element of `this` with
`to_apply(*(*this)(row, col), *(*this)(row, col))` — again both
arguments read from `this`, as in the source. -/
def elementwise_binary_apply_inplace [Inhabited α] (m : Matrix α)
    (other : Matrix α) (to_apply : α → α → α) : Except MatErr (Matrix α) :=
  if m.nrows ≠ other.nrows ∨ m.ncols ≠ other.ncols then
    .error .shapeMismatch
  else
    iterGo (fun rc cur => do
        let v1 ← cur.access rc.1 rc.2
        let v2 ← cur.access rc.1 rc.2
        cur.set rc.1 rc.2 (to_apply v1 v2))
      (rowMajorIdx m.nrows m.ncols) m

/-- The scan of `any()`: early `return true` on the first truthy
element. -/
def anyGo [Inhabited α] [Truthy α] (m : Matrix α) :
    List (Nat × Nat) → Except MatErr Bool
  | [] => .ok false
  | rc :: rest =>
    match m.access rc.1 rc.2 with
    | .error e => .error e
    | .ok v => if Truthy.truthy v then .ok true else anyGo m rest

/-- Embedding of `any()`: true if any element of the Matrix is truthy. -/
def any [Inhabited α] [Truthy α] (m : Matrix α) : Except MatErr Bool :=
  anyGo m (rowMajorIdx m.nrows m.ncols)

/-- The scan of `all()`: carries the `all_truthy` flag over the whole
matrix (the source does not break out of the loop early). -/
def allGo [Inhabited α] [Truthy α] (m : Matrix α) (all_truthy : Bool) :
    List (Nat × Nat) → Except MatErr Bool
  | [] => .ok all_truthy
  | rc :: rest =>
    match m.access rc.1 rc.2 with
    | .error e => .error e
    | .ok v =>
      allGo m (if Truthy.truthy v then all_truthy else false) rest

/-- Embedding of `all()`: true if all elements of the Matrix are truthy. -/
def all [Inhabited α] [Truthy α] (m : Matrix α) : Except MatErr Bool :=
  allGo m true (rowMajorIdx m.nrows m.ncols)

/-- The initializer-list copy loop of
`Matrix(nrows, ncols, std::initializer_list)`: writes the incoming
elements into successive buffer positions, throwing "too many" as soon
as the running index reaches the buffer length. -/
def initGo (data : List α) (data_index : Nat) :
    List α → Except MatErr (List α × Nat)
  | [] => .ok (data, data_index)
  | elem :: rest =>
    if data_index ≥ data.length then .error .tooMany
    else initGo (data.set data_index elem) (data_index + 1) rest

/-- Embedding of `Matrix(nrows, ncols, std::initializer_list elements)`: zero-filled
buffer of `nrows*ncols`, the copy loop, then the trailing "too few"
check against the buffer length. -/
def mkInitList [CastZero α] (nrows ncols : Nat) (elements : List α) :
    Except MatErr (Matrix α) :=
  match initGo (List.replicate (nrows * ncols) CastZero.czero) 0 elements with
  | .error e => .error e
  | .ok (data, data_index) =>
    if data_index ≠ data.length then .error .tooFew
    else .ok ⟨data, ncols, 1, nrows, ncols, nrows * ncols⟩

end Matrix

theorem getD_set_self {l : List α} {i : Nat} (a d : α) (h : i < l.length) :
    (l.set i a).getD i d = a := by
  induction l generalizing i with
  | nil => simp at h
  | cons x xs ih =>
    cases i with
    | zero => rfl
    | succ n =>
      simp only [List.set, List.getD, List.getElem?_cons_succ]
      exact ih (by simpa using h)

theorem getD_set_ne {l : List α} {i j : Nat} (a d : α) (h : i ≠ j) :
    (l.set i a).getD j d = l.getD j d := by
  induction l generalizing i j with
  | nil => simp [List.set]
  | cons x xs ih =>
    cases i with
    | zero =>
      cases j with
      | zero => exact absurd rfl h
      | succ n => rfl
    | succ n =>
      cases j with
      | zero => rfl
      | succ k =>
        simp only [List.set, List.getD, List.getElem?_cons_succ]
        exact ih (fun he => h (by rw [he]))

theorem mem_rowMajorIdx {nrows ncols r c : Nat} :
    (r, c) ∈ rowMajorIdx nrows ncols ↔ r < nrows ∧ c < ncols := by
  simp only [rowMajorIdx, List.mem_flatMap, List.mem_map, List.mem_range,
    Prod.mk.injEq]
  constructor
  · rintro ⟨r', hr', c', hc', rfl, rfl⟩
    exact ⟨hr', hc'⟩
  · rintro ⟨hr, hc⟩
    exact ⟨r, hr, c, hc, rfl, rfl⟩

theorem rowMajorIdx_ncols_zero (nrows : Nat) :
    rowMajorIdx nrows 0 = [] := by
  simp [rowMajorIdx]

theorem rowMajorIdx_nrows_zero (ncols : Nat) :
    rowMajorIdx 0 ncols = [] := by
  simp [rowMajorIdx]

theorem iterGo_frame {f : ι → Matrix α → Except MatErr (Matrix α)}
    (hf : ∀ i s s', f i s = .ok s' → Matrix.frameEq s s') :
    ∀ (l : List ι) (s s' : Matrix α),
      iterGo f l s = .ok s' → Matrix.frameEq s s' := by
  intro l
  induction l with
  | nil =>
    intro s s' h
    simp only [iterGo] at h
    cases h
    exact Matrix.frameEq.refl s
  | cons i is ih =>
    intro s s' h
    simp only [iterGo] at h
    cases hfi : f i s with
    | error e => rw [hfi] at h; exact absurd h (by simp)
    | ok s1 =>
      rw [hfi] at h
      exact (hf i s s1 hfi).trans (ih s1 s' h)

theorem iterGo_ok_frame {f : ι → Matrix α → Except MatErr (Matrix α)}
    {s0 : Matrix α}
    (hf : ∀ i s s', f i s = .ok s' → Matrix.frameEq s s') :
    ∀ (l : List ι) (s : Matrix α), Matrix.frameEq s0 s →
      (∀ i ∈ l, ∀ t, Matrix.frameEq s0 t → ∃ t', f i t = .ok t') →
      ∃ s', iterGo f l s = .ok s' ∧ Matrix.frameEq s0 s' := by
  intro l
  induction l with
  | nil =>
    intro s hs _
    exact ⟨s, rfl, hs⟩
  | cons i is ih =>
    intro s hs hsucc
    obtain ⟨s1, hs1⟩ := hsucc i (by simp) s hs
    obtain ⟨s', hgo, hframe⟩ :=
      ih s1 (hs.trans (hf i s s1 hs1))
        (fun j hj t ht => hsucc j (by simp [hj]) t ht)
    exact ⟨s', by simp only [iterGo, hs1]; exact hgo, hframe⟩

/-- Frame preservation of the read-then-write loop body used by the
scalar row/column mutators and `scalar_binary_apply_inplace`. -/
theorem rw_step_frame [Inhabited α] {a b : Nat} {g : α → α}
    (s s' : Matrix α)
    (h : (do
        let v ← s.access a b
        s.set a b (g v)) = .ok s') :
    Matrix.frameEq s s' := by
  cases hv : s.access a b with
  | error e => rw [hv] at h; exact nomatch h
  | ok v =>
    rw [hv] at h
    exact Matrix.set_frame h

/-- Frame preservation of the two-reads-then-write loop body used by the
elementwise row/column mutators and the elementwise in-place apply. -/
theorem rrw_step_frame [Inhabited α] {a1 b1 a2 b2 : Nat}
    {g : α → α → α} (s s' : Matrix α)
    (h : (do
        let v1 ← s.access a1 b1
        let v2 ← s.access a2 b2
        s.set a2 b2 (g v1 v2)) = .ok s') :
    Matrix.frameEq s s' := by
  cases hv1 : s.access a1 b1 with
  | error e => rw [hv1] at h; exact nomatch h
  | ok v1 =>
    rw [hv1] at h
    cases hv2 : s.access a2 b2 with
    | error e =>
      rw [hv2] at h
      exact nomatch h
    | ok v2 =>
      rw [hv2] at h
      exact Matrix.set_frame h

/-- Frame preservation of the swap loop body. -/
theorem swap_step_frame [Inhabited α] {r1 c1 r2 c2 : Nat}
    (s s' : Matrix α)
    (h : (do
        let a ← s.access r1 c1
        let b ← s.access r2 c2
        let cur1 ← s.set r1 c1 b
        cur1.set r2 c2 a) = .ok s') :
    Matrix.frameEq s s' := by
  cases hva : s.access r1 c1 with
  | error e => rw [hva] at h; exact nomatch h
  | ok a =>
    rw [hva] at h
    cases hvb : s.access r2 c2 with
    | error e => rw [hvb] at h; exact nomatch h
    | ok b =>
      rw [hvb] at h
      have h2 : (s.set r1 c1 b >>= fun cur1 => cur1.set r2 c2 a) = .ok s' := h
      cases hs1 : s.set r1 c1 b with
      | error e => rw [hs1] at h2; exact nomatch h2
      | ok s1 =>
        rw [hs1] at h2
        exact (Matrix.set_frame hs1).trans (Matrix.set_frame h2)

/-- Frame preservation of a loop body whose reads come from a fixed
matrix `m` and whose single write goes to the threaded state. -/
theorem fixed_reads_step_frame [Inhabited α] [Inhabited β] {m : Matrix α}
    {a b : Nat} {g : α → α → β} (s s' : Matrix β)
    (h : (do
        let v1 ← m.access a b
        let v2 ← m.access a b
        s.set a b (g v1 v2)) = .ok s') :
    Matrix.frameEq s s' := by
  cases hv1 : m.access a b with
  | error e => rw [hv1] at h; exact nomatch h
  | ok v1 =>
    rw [hv1] at h
    exact Matrix.set_frame h

theorem rowmajor_offset_lt {r c nrows ncols : Nat} (hr : r < nrows)
    (hc : c < ncols) : r * ncols + c < nrows * ncols :=
  calc r * ncols + c < r * ncols + ncols := by omega
  _ = (r + 1) * ncols := by ring
  _ ≤ nrows * ncols := Nat.mul_le_mul (Nat.succ_le_of_lt hr) (le_refl ncols)

theorem mkFill_accessible (nrows ncols : Nat) (z : α) :
    Matrix.accessible (Matrix.mkFill nrows ncols z) := by
  intro r hr c hc
  have h := rowmajor_offset_lt hr hc
  simp only [Matrix.mkFill, Matrix.offset] at *
  constructor
  · simpa using h
  · rw [List.length_replicate]
    simpa using h


theorem initGo_err (es : List α) : ∀ (d : List α) (i : Nat),
    i ≤ d.length → i + es.length > d.length →
    Matrix.initGo d i es = .error .tooMany := by
  induction es with
  | nil =>
    intro d i h1 h2
    simp only [List.length_nil] at h2
    exact absurd h2 (by omega)
  | cons e rest ih =>
    intro d i h1 h2
    simp only [Matrix.initGo]
    by_cases hge : i ≥ d.length
    · rw [if_pos hge]
    · rw [if_neg hge]
      apply ih
      · rw [List.length_set]; omega
      · rw [List.length_set]
        simp only [List.length_cons] at h2
        omega

theorem initGo_ok (es : List α) : ∀ (d : List α) (i : Nat),
    i + es.length ≤ d.length →
    ∃ d', Matrix.initGo d i es = .ok (d', i + es.length) ∧
      d'.length = d.length ∧
      ∀ j (dflt : α), d'.getD j dflt =
        if i ≤ j ∧ j < i + es.length then es.getD (j - i) dflt
        else d.getD j dflt := by
  induction es with
  | nil =>
    intro d i h
    refine ⟨d, by simp [Matrix.initGo], rfl, fun j dflt => ?_⟩
    rw [if_neg (by simp only [List.length_nil]; omega)]
  | cons e rest ih =>
    intro d i h
    simp only [List.length_cons] at h ⊢
    have hlen : i < d.length := by omega
    obtain ⟨d', hgo, hdlen, hval⟩ :=
      ih (d.set i e) (i + 1) (by rw [List.length_set]; omega)
    have harith : i + 1 + rest.length = i + (rest.length + 1) := by omega
    refine ⟨d', ?_, by rw [hdlen, List.length_set], fun j dflt => ?_⟩
    · simp only [Matrix.initGo]
      rw [if_neg (by omega), hgo, harith]
    · rw [hval j dflt]
      by_cases h1 : j = i
      · subst h1
        rw [if_neg (by omega), if_pos (by omega)]
        rw [getD_set_self e dflt hlen]
        simp
      · by_cases h2 : i + 1 ≤ j ∧ j < i + 1 + rest.length
        · rw [if_pos h2, if_pos (by omega)]
          have hj1 : j - i = (j - (i + 1)) + 1 := by omega
          rw [hj1]
          rfl
        · rw [if_neg h2, if_neg (by omega)]
          exact getD_set_ne e dflt (fun he => h1 he.symm)

end teensymat

namespace teensymat

/-- C8 (counterexample): with aliasing strides the claim fails — on the
2x1 integer matrix over buffer `[5]` with both strides 0 (every valid
coordinate accessible), `mult_row_scalar(0, 3)` succeeds and also
changes row 1: the element at `(1,0)` reads 15 afterwards, not its
original 5. -/
theorem mult_row_scalar_aliasing_counterexample :
    (Matrix.mkFromVecStrides 2 1 0 0 [5] : Matrix Int).mult_row_scalar 0 3 =
      .ok (Matrix.mkFromVecStrides 2 1 0 0 [15]) ∧
    (Matrix.mkFromVecStrides 2 1 0 0 [5] : Matrix Int).accessible ∧
    (Matrix.mkFromVecStrides 2 1 0 0 [5] : Matrix Int).access 1 0 = .ok 5 ∧
    (Matrix.mkFromVecStrides 2 1 0 0 [15] : Matrix Int).access 1 0 =
      .ok 15 ∧
    (15 : Int) ≠ 5 :=
  ⟨rfl, by decide, rfl, rfl, by decide⟩

/-- Value tracking through the `mult_row_scalar` column loop, for a
matrix whose coordinate-to-offset map is injective: the processed cells
of the given row are multiplied, every other cell reads unchanged. -/
theorem mult_row_go_spec [Inhabited α] [Mul α] {m : Matrix α} (row : Nat)
    (k : α) (hacc : m.accessible) (hinj : m.offsetInjective)
    (hrow : row < m.nrows) :
    ∀ (cols : List Nat), (∀ c ∈ cols, c < m.ncols) → cols.Nodup →
      ∀ (cur : Matrix α), Matrix.frameEq m cur →
      ∃ res, iterGo (fun col cur => do
          let v ← cur.access row col
          cur.set row col (v * k)) cols cur = .ok res ∧
        Matrix.frameEq m res ∧
        ∀ r, r < m.nrows → ∀ c, c < m.ncols →
          res.access r c =
            if r = row ∧ c ∈ cols then (cur.access r c).map (· * k)
            else cur.access r c := by
  intro cols
  induction cols with
  | nil =>
    intro _ _ cur hframe
    refine ⟨cur, rfl, hframe, fun r hr c hc => ?_⟩
    rw [if_neg (by simp)]
  | cons c0 cs ih =>
    intro hsub hnd cur hframe
    have hc0 : c0 < m.ncols := hsub c0 (List.mem_cons_self c0 cs)
    obtain ⟨hc0cs, hndcs⟩ := List.nodup_cons.mp hnd
    have haccC : cur.accessible := Matrix.accessible_of_frameEq hframe hacc
    have hinjC : cur.offsetInjective :=
      Matrix.offsetInjective_of_frameEq hframe hinj
    have hrowC : row < cur.nrows := hframe.1 ▸ hrow
    have hc0C : c0 < cur.ncols := hframe.2.1 ▸ hc0
    have h1 := Matrix.access_ok_of_accessible haccC hrowC hc0C
    have h2 : cur.set row c0
        ((cur.data.getD (cur.offset row c0) default) * k) =
        .ok (cur.multUpd row c0 k) :=
      Matrix.set_ok_of_accessible
        ((cur.data.getD (cur.offset row c0) default) * k) haccC hrowC hc0C
    have hf1 : Matrix.frameEq cur (cur.multUpd row c0 k) :=
      Matrix.set_frame h2
    obtain ⟨res, hgo, hframeRes, hvals⟩ :=
      ih (fun c hc => hsub c (List.mem_cons_of_mem c0 hc)) hndcs
        (cur.multUpd row c0 k) (hframe.trans hf1)
    have hstep : (do
        let v ← cur.access row c0
        cur.set row c0 (v * k)) = .ok (cur.multUpd row c0 k) := by
      rw [h1]; exact h2
    refine ⟨res, ?_, hframeRes, ?_⟩
    · simp only [iterGo]
      rw [hstep]
      exact hgo
    · intro r hr c hc
      have hrC : r < cur.nrows := hframe.1 ▸ hr
      have hcC : c < cur.ncols := hframe.2.1 ▸ hc
      have hacc1 : Matrix.accessible (cur.multUpd row c0 k) :=
        Matrix.accessible_of_frameEq hf1 haccC
      have hkey : (cur.multUpd row c0 k).access r c =
          if r = row ∧ c = c0 then
            .ok ((cur.data.getD (cur.offset row c0) default) * k)
          else cur.access r c := by
        have ha1 := Matrix.access_ok_of_accessible hacc1
          (hf1.1 ▸ hrC) (hf1.2.1 ▸ hcC)
        rw [ha1]
        by_cases heq : r = row ∧ c = c0
        · rw [if_pos heq]
          obtain ⟨h1eq, h2eq⟩ := heq
          subst h1eq; subst h2eq
          show Except.ok ((cur.data.set (cur.offset r c)
            ((cur.data.getD (cur.offset r c) default) * k)).getD
              (cur.offset r c) default) = _
          rw [getD_set_self _ _ (haccC r hrC c hcC).2]
        · rw [if_neg heq]
          have hne : cur.offset row c0 ≠ cur.offset r c := by
            intro hoeq
            have := hinjC r hrC c hcC row hrowC c0 hc0C hoeq.symm
            exact heq this
          rw [Matrix.access_ok_of_accessible haccC hrC hcC]
          show Except.ok ((cur.data.set (cur.offset row c0)
            ((cur.data.getD (cur.offset row c0) default) * k)).getD
              (cur.offset r c) default) = _
          rw [getD_set_ne _ _ hne]
      rw [hvals r hr c hc]
      by_cases hA : r = row ∧ c = c0
      · have hnotcs : ¬(r = row ∧ c ∈ cs) := fun hB => hc0cs (hA.2 ▸ hB.2)
        rw [if_neg hnotcs, hkey, if_pos hA,
          if_pos ⟨hA.1, by rw [hA.2]; exact List.mem_cons_self c0 cs⟩]
        obtain ⟨h1eq, h2eq⟩ := hA
        subst h1eq; subst h2eq
        rw [h1]
        rfl
      · by_cases hB : r = row ∧ c ∈ cs
        · rw [if_pos hB, hkey, if_neg hA,
            if_pos ⟨hB.1, List.mem_cons_of_mem c0 hB.2⟩]
        · rw [if_neg hB, hkey, if_neg hA, if_neg (by
            intro hC
            rcases List.mem_cons.mp hC.2 with h | h
            · exact hA ⟨hC.1, h⟩
            · exact hB ⟨hC.1, h⟩)]

/-- C8 (amended): for every integer matrix all of whose valid coordinates
are accessible and whose coordinate-to-offset map is injective on valid
coordinates (both hold for matrices built by the validating
constructors), and every valid row index `r` and scalar `k`:
`mult_row_scalar(r, k)` succeeds, every element of row `r` becomes its
prior value times `k`, and every element of every other row is
unchanged. -/
theorem mult_row_scalar_row_effect (m : Matrix Int) (row : Nat) (k : Int)
    (hacc : m.accessible) (hinj : m.offsetInjective)
    (hrow : row < m.nrows) :
    ∃ m', m.mult_row_scalar row k = .ok m' ∧
      (∀ c, c < m.ncols → m'.access row c = (m.access row c).map (· * k)) ∧
      (∀ r c, r < m.nrows → c < m.ncols → r ≠ row →
        m'.access r c = m.access r c) := by
  obtain ⟨res, hgo, _, hvals⟩ := mult_row_go_spec row k hacc hinj hrow
    (List.range m.ncols) (fun c hc => List.mem_range.mp hc)
    (List.nodup_range m.ncols) m (Matrix.frameEq.refl m)
  refine ⟨res, hgo, ?_, ?_⟩
  · intro c hc
    rw [hvals row hrow c hc, if_pos ⟨rfl, List.mem_range.mpr hc⟩]
  · intro r c hr hc hne
    rw [hvals r hr c hc, if_neg (fun h => hne h.1)]

/-- Witness for C8 (amended): the 2x3 matrix `{1,2,3,4,5,6}` after
`mult_row_scalar(0, 2)` has row 0 doubled and row 1 untouched. -/
theorem mult_row_scalar_row_effect_witness :
    ∃ m', (Matrix.mkFromVec 2 3 [1, 2, 3, 4, 5, 6]
        : Matrix Int).mult_row_scalar 0 2 = .ok m' ∧
      (∀ c, c < (Matrix.mkFromVec 2 3 [1, 2, 3, 4, 5, 6]
          : Matrix Int).ncols →
        m'.access 0 c =
          ((Matrix.mkFromVec 2 3 [1, 2, 3, 4, 5, 6]
            : Matrix Int).access 0 c).map (· * 2)) ∧
      (∀ r c, r < 2 → c < 3 → r ≠ 0 →
        m'.access r c =
          (Matrix.mkFromVec 2 3 [1, 2, 3, 4, 5, 6] : Matrix Int).access r c) := by
  obtain ⟨m', hgo, hrow0, hrest⟩ := mult_row_scalar_row_effect
    (Matrix.mkFromVec 2 3 [1, 2, 3, 4, 5, 6]) 0 2
    (by decide) (by decide) (by decide)
  exact ⟨m', hgo, hrow0, fun r c hr hc hne => hrest r c hr hc hne⟩

/-- C4: `elementwise_binary_apply` and its in-place variant fail with the
shape-mismatch error — raised by the check that precedes the loops, so
before any element is written — whenever `nrows` or `ncols` differ; on
operands of equal shape (the left operand satisfying the data-model
accessibility invariant) they do not fail and the produced matrix has the
input values of `nrows` and `ncols`. -/
theorem ewise_apply_shape_contract [Inhabited α] [Inhabited β] [CastZero β]
    (m other : Matrix α) (f : α → α → β) (g : α → α → α) :
    ((m.nrows ≠ other.nrows ∨ m.ncols ≠ other.ncols) →
      m.elementwise_binary_apply other f = .error .shapeMismatch ∧
      m.elementwise_binary_apply_inplace other g = .error .shapeMismatch) ∧
    (m.nrows = other.nrows → m.ncols = other.ncols →
      Matrix.accessible m →
      (∃ res, m.elementwise_binary_apply other f = .ok res ∧
        res.nrows = m.nrows ∧ res.ncols = m.ncols) ∧
      (∃ res, m.elementwise_binary_apply_inplace other g = .ok res ∧
        res.nrows = m.nrows ∧ res.ncols = m.ncols)) := by
  constructor
  · intro hmm
    constructor
    · unfold Matrix.elementwise_binary_apply
      rw [if_pos hmm]
    · unfold Matrix.elementwise_binary_apply_inplace
      rw [if_pos hmm]
  · intro hr hc hacc
    have hacc0 : Matrix.accessible (Matrix.mkZeros β m.nrows m.ncols) :=
      mkFill_accessible m.nrows m.ncols CastZero.czero
    constructor
    · have hstep : ∀ (rc : Nat × Nat) (s s' : Matrix β),
          (do
            let v1 ← m.access rc.1 rc.2
            let v2 ← m.access rc.1 rc.2
            s.set rc.1 rc.2 (f v1 v2)) = .ok s' → Matrix.frameEq s s' :=
        fun rc s s' hs => fixed_reads_step_frame s s' hs
      have hsucc : ∀ rc ∈ rowMajorIdx m.nrows m.ncols, ∀ t : Matrix β,
          Matrix.frameEq (Matrix.mkZeros β m.nrows m.ncols) t →
          ∃ t', (do
            let v1 ← m.access rc.1 rc.2
            let v2 ← m.access rc.1 rc.2
            t.set rc.1 rc.2 (f v1 v2)) = .ok t' := by
        rintro ⟨r, c⟩ hrc t ht
        obtain ⟨hrn, hcn⟩ := mem_rowMajorIdx.mp hrc
        have haccT : Matrix.accessible t :=
          Matrix.accessible_of_frameEq ht hacc0
        have h1 := Matrix.access_ok_of_accessible hacc hrn hcn
        have h2 := Matrix.set_ok_of_accessible
          (f (m.data.getD (m.offset r c) default)
             (m.data.getD (m.offset r c) default))
          haccT (ht.1 ▸ hrn) (ht.2.1 ▸ hcn)
        exact ⟨_, by rw [h1]; exact h2⟩
      obtain ⟨res, hgo, hframe⟩ :=
        iterGo_ok_frame hstep (rowMajorIdx m.nrows m.ncols)
          (Matrix.mkZeros β m.nrows m.ncols) (Matrix.frameEq.refl _) hsucc
      refine ⟨res, ?_, hframe.1.symm, hframe.2.1.symm⟩
      unfold Matrix.elementwise_binary_apply
      rw [if_neg (by omega), hgo]
    · have hstep : ∀ (rc : Nat × Nat) (s s' : Matrix α),
          (do
            let v1 ← s.access rc.1 rc.2
            let v2 ← s.access rc.1 rc.2
            s.set rc.1 rc.2 (g v1 v2)) = .ok s' → Matrix.frameEq s s' :=
        fun rc s s' hs => rrw_step_frame s s' hs
      have hsucc : ∀ rc ∈ rowMajorIdx m.nrows m.ncols, ∀ t : Matrix α,
          Matrix.frameEq m t →
          ∃ t', (do
            let v1 ← t.access rc.1 rc.2
            let v2 ← t.access rc.1 rc.2
            t.set rc.1 rc.2 (g v1 v2)) = .ok t' := by
        rintro ⟨r, c⟩ hrc t ht
        obtain ⟨hrn, hcn⟩ := mem_rowMajorIdx.mp hrc
        have haccT : Matrix.accessible t :=
          Matrix.accessible_of_frameEq ht hacc
        have h1 := Matrix.access_ok_of_accessible haccT
          (ht.1 ▸ hrn) (ht.2.1 ▸ hcn)
        have h2 := Matrix.set_ok_of_accessible
          (g (t.data.getD (t.offset r c) default)
             (t.data.getD (t.offset r c) default))
          haccT (ht.1 ▸ hrn) (ht.2.1 ▸ hcn)
        exact ⟨_, by rw [h1]; exact h2⟩
      obtain ⟨res, hgo, hframe⟩ :=
        iterGo_ok_frame hstep (rowMajorIdx m.nrows m.ncols) m
          (Matrix.frameEq.refl _) hsucc
      refine ⟨res, ?_, hframe.1.symm, hframe.2.1.symm⟩
      unfold Matrix.elementwise_binary_apply_inplace
      rw [if_neg (by omega), hgo]

/-- Witness for C4: a 1x2/2x1 pair mismatches; a 1x2/1x2 pair succeeds
with the input dimensions. -/
theorem ewise_apply_shape_contract_witness :
    Matrix.elementwise_binary_apply (Matrix.mkFromVec 1 2 [1, 2])
      (Matrix.mkFromVec 2 1 [3, 4]) (fun a b : Int => a + b) =
      .error .shapeMismatch ∧
    (∃ res, Matrix.elementwise_binary_apply (Matrix.mkFromVec 1 2 [1, 2])
      (Matrix.mkFromVec 1 2 [3, 4]) (fun a b : Int => a + b) = .ok res ∧
      res.nrows = 1 ∧ res.ncols = 2) := by
  constructor
  · exact ((ewise_apply_shape_contract (Matrix.mkFromVec 1 2 [1, 2])
      (Matrix.mkFromVec 2 1 [3, 4]) (fun a b : Int => a + b)
      (fun a b : Int => a + b)).1 (by decide)).1
  · exact (((ewise_apply_shape_contract (Matrix.mkFromVec 1 2 [1, 2])
      (Matrix.mkFromVec 1 2 [3, 4]) (fun a b : Int => a + b)
      (fun a b : Int => a + b)).2 rfl rfl (by decide))).1

/-- C5: `Matrix(nrows, ncols, initializer_list)` fails with the "too
many" error exactly when the sequence is longer than `nrows*ncols`,
fails with the distinct "too few" error exactly when it is shorter
(detected after the whole sequence is consumed), and succeeds exactly
when the length equals `nrows*ncols`, placing the elements in row-major
order. -/
theorem init_list_ctor_length_contract [CastZero α] [Inhabited α]
    (nrows ncols : Nat) (elements : List α) :
    (Matrix.mkInitList nrows ncols elements = .error .tooMany ↔
      elements.length > nrows * ncols) ∧
    (Matrix.mkInitList nrows ncols elements = .error .tooFew ↔
      elements.length < nrows * ncols) ∧
    ((∃ m, Matrix.mkInitList nrows ncols elements = .ok m) ↔
      elements.length = nrows * ncols) ∧
    (elements.length = nrows * ncols →
      ∃ m, Matrix.mkInitList nrows ncols elements = .ok m ∧
        m.nrows = nrows ∧ m.ncols = ncols ∧
        ∀ r c, r < nrows → c < ncols →
          m.access r c = .ok (elements.getD (r * ncols + c) default)) := by
  by_cases hgt : elements.length > nrows * ncols
  · have herr : Matrix.mkInitList nrows ncols elements =
        .error MatErr.tooMany := by
      unfold Matrix.mkInitList
      rw [initGo_err elements _ 0 (by simp) (by simp [hgt])]
    refine ⟨⟨fun _ => hgt, fun _ => herr⟩, ⟨?_, ?_⟩, ⟨?_, ?_⟩, ?_⟩
    · intro h; rw [herr] at h; exact absurd h (by simp)
    · intro h; omega
    · rintro ⟨m, hm⟩; rw [herr] at hm; exact absurd hm (by simp)
    · intro h; omega
    · intro h; omega
  · obtain ⟨d', hgo, hdlen, hval⟩ :=
      initGo_ok elements (List.replicate (nrows * ncols) CastZero.czero) 0
        (by simp; omega)
    rw [List.length_replicate] at hdlen
    by_cases heq : elements.length = nrows * ncols
    · have hok : Matrix.mkInitList nrows ncols elements =
          .ok ⟨d', ncols, 1, nrows, ncols, nrows * ncols⟩ := by
        unfold Matrix.mkInitList
        rw [hgo]
        simp only [Nat.zero_add]
        rw [if_neg (by omega)]
      refine ⟨⟨?_, ?_⟩, ⟨?_, ?_⟩, ⟨fun _ => heq, fun _ => ⟨_, hok⟩⟩, ?_⟩
      · intro h; rw [hok] at h; exact absurd h (by simp)
      · intro h; omega
      · intro h; rw [hok] at h; exact absurd h (by simp)
      · intro h; omega
      · intro _
        refine ⟨_, hok, rfl, rfl, fun r c hr hc => ?_⟩
        have hofs : r * ncols + c * 1 < nrows * ncols := by
          simpa using rowmajor_offset_lt hr hc
        have hofs2 : r * ncols + c * 1 < d'.length := by
          rw [hdlen]; exact hofs
        have hacc := @Matrix.access_ok α _
          ⟨d', ncols, 1, nrows, ncols, nrows * ncols⟩ r c hr hc hofs hofs2
        rw [hacc]
        show Except.ok (d'.getD (r * ncols + c * 1) default) =
          Except.ok (elements.getD (r * ncols + c) default)
        rw [hval (r * ncols + c * 1) default,
          if_pos ⟨Nat.zero_le _, by rw [heq]; simpa using hofs⟩]
        have harg : r * ncols + c * 1 - 0 = r * ncols + c := by
          simp
        rw [harg]
    · have hlt : elements.length < nrows * ncols := by omega
      have herr : Matrix.mkInitList nrows ncols elements =
          .error MatErr.tooFew := by
        unfold Matrix.mkInitList
        rw [hgo]
        simp only [Nat.zero_add]
        rw [if_pos (by omega)]
      refine ⟨⟨?_, ?_⟩, ⟨fun _ => hlt, fun _ => herr⟩, ⟨?_, ?_⟩, ?_⟩
      · intro h; rw [herr] at h; exact absurd h (by simp)
      · intro h; omega
      · rintro ⟨m, hm⟩; rw [herr] at hm; exact absurd hm (by simp)
      · intro h; omega
      · intro h; omega

/-- Witness for C5: a 2x3 matrix from six literals lands each value at
its row-major coordinate; five literals fail with "too few", seven with
"too many". -/
theorem init_list_ctor_length_contract_witness :
    Matrix.mkInitList 2 3 ([1, 2, 3, 4, 5, 6, 7] : List Int) =
      .error .tooMany ∧
    Matrix.mkInitList 2 3 ([1, 2, 3, 4, 5] : List Int) =
      .error .tooFew ∧
    ∃ m, Matrix.mkInitList 2 3 ([1, 2, 3, 4, 5, 6] : List Int) = .ok m ∧
      m.access 1 1 = .ok 5 := by
  have h7 := (init_list_ctor_length_contract 2 3
    ([1, 2, 3, 4, 5, 6, 7] : List Int)).1.2 (by decide)
  have h5 := (init_list_ctor_length_contract 2 3
    ([1, 2, 3, 4, 5] : List Int)).2.1.2 (by decide)
  obtain ⟨m, hm, _, _, hval⟩ := (init_list_ctor_length_contract 2 3
    ([1, 2, 3, 4, 5, 6] : List Int)).2.2.2 (by decide)
  exact ⟨h7, h5, m, hm, by rw [hval 1 1 (by decide) (by decide)]; rfl⟩

end teensymat

namespace teensymat

/-- C2: the accessor `operator()(row, col)` fails with the logical
out-of-bounds error ("Invalid index") exactly when `row ≥ nrows` or
`col ≥ ncols`; when that check passes it fails with the distinct physical
out-of-bounds error ("Tried accessing element beyond Matrix data")
exactly when the offset `row*row_stride + col*col_stride` is `≥
matrix_size` or `≥` the buffer length; otherwise the reference it returns
reads the element at that offset and writes through to that offset. -/
theorem accessor_two_stage_bounds_contract [Inhabited α] (m : Matrix α)
    (row col : Nat) (v : α) :
    (m.access row col = .error .invalidIndex ↔
      row ≥ m.nrows ∨ col ≥ m.ncols) ∧
    (row < m.nrows → col < m.ncols →
      ((m.access row col = .error .beyondData ↔
         row * m.row_stride + col * m.col_stride ≥ m.matrix_size ∨
         row * m.row_stride + col * m.col_stride ≥ m.data.length) ∧
       (row * m.row_stride + col * m.col_stride < m.matrix_size →
        row * m.row_stride + col * m.col_stride < m.data.length →
        m.access row col =
          .ok (m.data.getD (row * m.row_stride + col * m.col_stride) default) ∧
        m.set row col v =
          .ok { m with
                data := m.data.set (row * m.row_stride + col * m.col_stride) v }))) := by
  refine ⟨?_, ?_⟩
  · constructor
    · intro h
      by_contra hb
      simp only [Matrix.access] at h
      rw [if_neg hb] at h
      split at h
      · exact absurd h (by simp)
      · exact absurd h (by simp)
    · intro h
      simp only [Matrix.access]
      rw [if_pos h]
  · intro h1 h2
    refine ⟨?_, ?_⟩
    · constructor
      · intro h
        by_contra hb
        simp only [Matrix.access] at h
        rw [if_neg (by omega), if_neg (by omega)] at h
        exact absurd h (by simp)
      · intro h
        simp only [Matrix.access]
        rw [if_neg (by omega), if_pos (by omega)]
    · intro h3 h4
      exact ⟨Matrix.access_ok h1 h2 h3 h4, Matrix.set_ok v h1 h2 h3 h4⟩

/-- C10: on a matrix with zero elements (`nrows = 0` or `ncols = 0`,
including the default-constructed 0x0 matrix), `any()` returns `false`
and `all()` returns `true`, and neither raises an error. -/
theorem any_all_vacuous_on_empty [Inhabited α] [Truthy α] (m : Matrix α)
    (h : m.nrows = 0 ∨ m.ncols = 0) :
    m.any = .ok false ∧ m.all = .ok true := by
  unfold Matrix.any Matrix.all
  rcases h with h0 | h0 <;> rw [h0]
  · rw [rowMajorIdx_nrows_zero]
    exact ⟨rfl, rfl⟩
  · rw [rowMajorIdx_ncols_zero]
    exact ⟨rfl, rfl⟩

/-- Witness for C10: the default-constructed 0x0 matrix. -/
theorem any_all_vacuous_on_empty_witness :
    (Matrix.mkDefault Int).any = .ok false ∧
    (Matrix.mkDefault Int).all = .ok true :=
  any_all_vacuous_on_empty (Matrix.mkDefault Int) (Or.inl rfl)

/-- C7: for every matrix (any strides) whose `matrix_size` field is
`nrows * ncols` — as every constructor establishes — `transpose()`
applied twice restores the dimensions and is elementwise-equal to the
original: every access, in particular at each valid coordinate, agrees. -/
theorem transpose_transpose_restores [Inhabited α] (m : Matrix α)
    (hsz : m.matrix_size = m.nrows * m.ncols) :
    m.transpose.transpose.nrows = m.nrows ∧
    m.transpose.transpose.ncols = m.ncols ∧
    ∀ r c, m.transpose.transpose.access r c = m.access r c := by
  have key : m.transpose.transpose = m := by
    cases m with
    | mk d rs cs nr nc ms =>
      have hsz1 : ms = nr * nc := hsz
      subst hsz1
      rfl
  rw [key]
  exact ⟨rfl, rfl, fun r c => rfl⟩

/-- Witness for C7: a 2x3 matrix with non-default strides, all
coordinates accessible. -/
theorem transpose_transpose_restores_witness :
    (Matrix.mkFromVecStrides 2 3 1 2 [1, 2, 3, 4, 5, 6]
        : Matrix Int).transpose.transpose.access 1 2 =
    (Matrix.mkFromVecStrides 2 3 1 2 [1, 2, 3, 4, 5, 6]
        : Matrix Int).access 1 2 :=
  (transpose_transpose_restores
    (Matrix.mkFromVecStrides 2 3 1 2 [1, 2, 3, 4, 5, 6]) rfl).2.2 1 2

/-- C6: the buffer-adopting constructors always succeed — they are total
functions that copy their arguments into the fields with no validation of
the buffer length against `nrows*ncols` or the strides — and an
inconsistent buffer surfaces only through the accessor: any valid
coordinate whose offset reaches `matrix_size` or the buffer length gets
the physical-bounds error, while coordinates whose offset stays within
both still succeed. -/
theorem buffer_adopting_constructors_defer_validation [Inhabited α]
    (nrows ncols rs cs : Nat) (elems : List α) :
    Matrix.mkFromVec nrows ncols elems =
      ⟨elems, ncols, 1, nrows, ncols, nrows * ncols⟩ ∧
    Matrix.mkFromVecStrides nrows ncols rs cs elems =
      ⟨elems, rs, cs, nrows, ncols, nrows * ncols⟩ ∧
    (∀ r c, r < nrows → c < ncols →
      ((r * rs + c * cs ≥ nrows * ncols ∨ r * rs + c * cs ≥ elems.length) →
        (Matrix.mkFromVecStrides nrows ncols rs cs elems).access r c =
          .error .beyondData) ∧
      (r * rs + c * cs < nrows * ncols → r * rs + c * cs < elems.length →
        (Matrix.mkFromVecStrides nrows ncols rs cs elems).access r c =
          .ok (elems.getD (r * rs + c * cs) default))) := by
  refine ⟨rfl, rfl, fun r c hr hc => ⟨fun hout => ?_, fun hin1 hin2 => ?_⟩⟩
  · simp only [Matrix.access, Matrix.mkFromVecStrides]
    rw [if_neg (by omega), if_pos (by omega)]
  · simp only [Matrix.access, Matrix.mkFromVecStrides]
    rw [if_neg (by omega), if_neg (by omega)]

/-- Witness for C6: a 2x2 header over a buffer of length 3 — construction
succeeds, the in-range access succeeds, the out-of-range access fails
physically. -/
theorem buffer_adopting_constructors_defer_validation_witness :
    (Matrix.mkFromVec 2 2 [1, 2, 3] : Matrix Int).access 1 0 = .ok 3 ∧
    (Matrix.mkFromVec 2 2 [1, 2, 3] : Matrix Int).access 1 1 =
      .error .beyondData := by
  have h := (buffer_adopting_constructors_defer_validation 2 2 2 1
    ([1, 2, 3] : List Int)).2.2
  constructor
  · have := ((h 1 0 (by decide) (by decide)).2 (by decide) (by decide))
    exact this
  · exact (h 1 1 (by decide) (by decide)).1 (by decide)

/-- C1 (code bug): `elementwise_binary_apply` and its in-place variant
pair each element of `this` with the element of `this` — not `other` —
at the same coordinate: on `A = {1,2}`, `B = {10,20}` (1x2) with
subtraction both produce `{0,0}` (`= A(r,c) - A(r,c)`), while pairing
with `B` would give `{-9,-18}`. -/
theorem elementwise_apply_pairs_this_with_this :
    Matrix.elementwise_binary_apply (Matrix.mkFromVec 1 2 [1, 2])
      (Matrix.mkFromVec 1 2 [10, 20]) (fun a b : Int => a - b) =
      .ok (Matrix.mkFromVec 1 2 [0, 0]) ∧
    Matrix.elementwise_binary_apply_inplace (Matrix.mkFromVec 1 2 [1, 2])
      (Matrix.mkFromVec 1 2 [10, 20]) (fun a b : Int => a - b) =
      .ok (Matrix.mkFromVec 1 2 [0, 0]) ∧
    (1 : Int) - 10 ≠ 0 ∧ (2 : Int) - 20 ≠ 0 := by
  refine ⟨rfl, rfl, by decide, by decide⟩

/-- C3 (code bug): the Matrix-scalar comparison operators delegate to
`elementwise_binary_apply`, which takes a Matrix — not a scalar — operand
and in this snapshot pairs `this` with `this`, so any such delegation
yields the all-`true` matrix (every element equals itself) regardless of
the compared value: it never computes the claimed comparison of
`M(row,col)` against `s`. -/
theorem matrix_scalar_comparison_delegation_is_degenerate :
    Matrix.elementwise_binary_apply (Matrix.mkFromVec 1 2 [5, 7])
      (Matrix.mkFromVec 1 2 [3, 9]) (fun a b : Int => a == b) =
      .ok (Matrix.mkFromVec 1 2 [true, true]) ∧
    ((5 : Int) == 3) = false ∧ ((7 : Int) == 9) = false := by
  refine ⟨rfl, by decide, by decide⟩

/-- C9: every mutating operation — `swap_row`, `swap_col`, the
row/column scalar mutators (`mult`/`div`/`add`/`sub`), the row/column
elementwise mutators, and `scalar_binary_apply_inplace` /
`elementwise_binary_apply_inplace` — leaves `nrows`, `ncols`,
`row_stride`, `col_stride`, `matrix_size` and the buffer length
unchanged; hence `matrix_size = nrows * ncols` keeps holding after every
operation on a matrix for which it held at construction. -/
theorem mutators_preserve_frame [Inhabited α] [Mul α] [One α] [Div α]
    [Add α] [Neg α] [Sub α] (m : Matrix α) (o : Matrix α) (i j : Nat)
    (k : α) (g : α → α → α) :
    (∀ m', m.swap_row i j = .ok m' → Matrix.frameEq m m') ∧
    (∀ m', m.swap_col i j = .ok m' → Matrix.frameEq m m') ∧
    (∀ m', m.mult_row_scalar i k = .ok m' → Matrix.frameEq m m') ∧
    (∀ m', m.mult_col_scalar i k = .ok m' → Matrix.frameEq m m') ∧
    (∀ m', m.div_row_scalar i k = .ok m' → Matrix.frameEq m m') ∧
    (∀ m', m.div_col_scalar i k = .ok m' → Matrix.frameEq m m') ∧
    (∀ m', m.add_row_scalar i k = .ok m' → Matrix.frameEq m m') ∧
    (∀ m', m.add_col_scalar i k = .ok m' → Matrix.frameEq m m') ∧
    (∀ m', m.sub_row_scalar i k = .ok m' → Matrix.frameEq m m') ∧
    (∀ m', m.sub_col_scalar i k = .ok m' → Matrix.frameEq m m') ∧
    (∀ m', m.add_row_elementwise i j = .ok m' → Matrix.frameEq m m') ∧
    (∀ m', m.add_col_elementwise i j = .ok m' → Matrix.frameEq m m') ∧
    (∀ m', m.sub_row_elementwise i j = .ok m' → Matrix.frameEq m m') ∧
    (∀ m', m.sub_col_elementwise i j = .ok m' → Matrix.frameEq m m') ∧
    (∀ m', m.scalar_binary_apply_inplace k g = .ok m' →
      Matrix.frameEq m m') ∧
    (∀ m', m.elementwise_binary_apply_inplace o g = .ok m' →
      Matrix.frameEq m m') ∧
    (∀ m', m.swap_row i j = .ok m' →
      m.matrix_size = m.nrows * m.ncols →
      m'.matrix_size = m'.nrows * m'.ncols) := by
  have hswap : ∀ r1 r2 (l : List Nat) m',
      iterGo (fun col cur => do
          let a ← cur.access r1 col
          let b ← cur.access r2 col
          let cur1 ← cur.set r1 col b
          cur1.set r2 col a) l m = .ok m' → Matrix.frameEq m m' :=
    fun r1 r2 l m' h =>
      iterGo_frame (fun col s s' hs => swap_step_frame s s' hs) l m m' h
  have hswapc : ∀ c1 c2 (l : List Nat) m',
      iterGo (fun row cur => do
          let a ← cur.access row c1
          let b ← cur.access row c2
          let cur1 ← cur.set row c1 b
          cur1.set row c2 a) l m = .ok m' → Matrix.frameEq m m' :=
    fun c1 c2 l m' h =>
      iterGo_frame (fun row s s' hs => swap_step_frame s s' hs) l m m' h
  have hrwr : ∀ (gg : α → α) r (l : List Nat) m',
      iterGo (fun col cur => do
          let v ← cur.access r col
          cur.set r col (gg v)) l m = .ok m' → Matrix.frameEq m m' :=
    fun gg r l m' h =>
      iterGo_frame (fun col s s' hs => rw_step_frame s s' hs) l m m' h
  have hrwc : ∀ (gg : α → α) c (l : List Nat) m',
      iterGo (fun row cur => do
          let v ← cur.access row c
          cur.set row c (gg v)) l m = .ok m' → Matrix.frameEq m m' :=
    fun gg c l m' h =>
      iterGo_frame (fun row s s' hs => rw_step_frame s s' hs) l m m' h
  have hewr : ∀ (gg : α → α → α) r1 r2 (l : List Nat) m',
      iterGo (fun col cur => do
          let b ← cur.access r2 col
          let a ← cur.access r1 col
          cur.set r1 col (gg a b)) l m = .ok m' → Matrix.frameEq m m' :=
    fun gg r1 r2 l m' h =>
      iterGo_frame (fun col s s' hs => rrw_step_frame s s' hs) l m m' h
  have hewc : ∀ (gg : α → α → α) c1 c2 (l : List Nat) m',
      iterGo (fun row cur => do
          let b ← cur.access row c2
          let a ← cur.access row c1
          cur.set row c1 (gg a b)) l m = .ok m' → Matrix.frameEq m m' :=
    fun gg c1 c2 l m' h =>
      iterGo_frame (fun row s s' hs => rrw_step_frame s s' hs) l m m' h
  refine ⟨fun m' h => hswap i j _ m' h, fun m' h => hswapc i j _ m' h,
    fun m' h => hrwr (· * k) i _ m' h, fun m' h => hrwc (· * k) i _ m' h,
    fun m' h => hrwr (· * ((1 : α) / k)) i _ m' h,
    fun m' h => hrwc (· * ((1 : α) / k)) i _ m' h,
    fun m' h => hrwr (· + k) i _ m' h, fun m' h => hrwc (· + k) i _ m' h,
    fun m' h => hrwr (· + (-k)) i _ m' h,
    fun m' h => hrwc (· + (-k)) i _ m' h,
    fun m' h => hewr (· + ·) i j _ m' h, fun m' h => hewc (· + ·) i j _ m' h,
    fun m' h => hewr (· - ·) i j _ m' h, fun m' h => hewc (· - ·) i j _ m' h,
    ?_, ?_, ?_⟩
  · intro m' h
    exact iterGo_frame (fun rc s s' hs => rw_step_frame s s' hs) _ m m' h
  · intro m' h
    simp only [Matrix.elementwise_binary_apply_inplace] at h
    split at h
    · exact nomatch h
    · exact iterGo_frame (fun rc s s' hs => rrw_step_frame s s' hs) _ m m' h
  · intro m' h hsz
    have hf := hswap i j _ m' h
    obtain ⟨h1, h2, _, _, h5, _⟩ := hf
    rw [← h5, ← h1, ← h2]
    exact hsz

/-- Witness for C9: frame preservation observed on a concrete swap. -/
theorem mutators_preserve_frame_witness :
    Matrix.frameEq (Matrix.mkFromVec 2 2 [1, 2, 3, 4] : Matrix Int)
      (Matrix.mkFromVec 2 2 [3, 4, 1, 2] : Matrix Int) := by
  have h := (mutators_preserve_frame
    (Matrix.mkFromVec 2 2 [1, 2, 3, 4] : Matrix Int)
    (Matrix.mkFromVec 2 2 [1, 2, 3, 4]) 0 1 2 (· + ·)).1
  exact h (Matrix.mkFromVec 2 2 [3, 4, 1, 2]) rfl

/-- Witness for C2: the contract evaluated on a concrete 2x2 matrix. -/
theorem accessor_two_stage_bounds_contract_witness :
    (Matrix.mkFromVec 2 2 [1, 2, 3, 4] : Matrix Int).access 0 1 = .ok 2 ∧
    (Matrix.mkFromVec 2 2 [1, 2, 3, 4] : Matrix Int).set 0 1 9 =
      .ok (Matrix.mkFromVec 2 2 [1, 9, 3, 4]) ∧
    (Matrix.mkFromVec 2 2 [1, 2, 3, 4] : Matrix Int).access 2 0 =
      .error .invalidIndex := by
  have h := accessor_two_stage_bounds_contract
    (Matrix.mkFromVec 2 2 [1, 2, 3, 4] : Matrix Int) 0 1 9
  have h2 := (h.2 (by decide) (by decide)).2 (by decide) (by decide)
  have h3 := accessor_two_stage_bounds_contract
    (Matrix.mkFromVec 2 2 [1, 2, 3, 4] : Matrix Int) 2 0 9
  refine ⟨?_, ?_, ?_⟩
  · rw [h2.1]; rfl
  · rw [h2.2]; rfl
  · rw [h3.1.2 (by decide)]

end teensymat
